import Mathlib

/-!
Verification of the quadratic-voting ballot app (`streamlit_app.py`).

The development shallowly embeds the app's ballot computation, submission
gating, email validation and spreadsheet-store operations as executable Lean
definitions and proves the specified properties about them.

Conventions of the embedding:
  * per-row checkbox session keys `row{i}_v1/_v2/_v3` become a `RowChecks`
    record of three booleans;
  * the Streamlit session state relevant to the ballot becomes `SessionState`;
  * the Google-Sheets worksheet becomes a `List (List String)` whose first
    element is the header row (gspread's 1-based rows/columns become 0-based
    list indices, with the `+ 1` offsets kept where the source computes them);
  * Python's `str.strip` becomes `pyStrip` (ASCII whitespace);
  * the `re` pattern on line 224 is embedded by its regex semantics as an
    explicit decomposition search (`reFullMatch`).
-/

namespace QV

/-- The three checkboxes of one grid row (session keys `row{i}_v1`, `row{i}_v2`,
`row{i}_v3`). -/
structure RowChecks where
  v1 : Bool
  v2 : Bool
  v3 : Bool
deriving DecidableEq, Repr

/-- Line 295: `v = 3 if k3 else 2 if k2 else 1 if k1 else 0`. -/
def rowVote (r : RowChecks) : Nat :=
  if r.v3 then 3 else if r.v2 then 2 else if r.v1 then 1 else 0

/-- Checkbox index within a row: 0 ↦ `_v1`, 1 ↦ `_v2`, 2 ↦ `_v3`. -/
def getCheck (r : RowChecks) : Fin 3 → Bool
  | ⟨0, _⟩ => r.v1
  | ⟨1, _⟩ => r.v2
  | ⟨2, _⟩ => r.v3

/-- Write one checkbox of a row (the widget storing its value under its key). -/
def setCheck (r : RowChecks) : Fin 3 → Bool → RowChecks
  | ⟨0, _⟩, b => { r with v1 := b }
  | ⟨1, _⟩, b => { r with v2 := b }
  | ⟨2, _⟩, b => { r with v3 := b }

/-- Lines 247-255, `exclusify`: if the active checkbox is checked, uncheck the
other two checkboxes of the row; otherwise leave the row unchanged. -/
def exclusify (active : Fin 3) (r : RowChecks) : RowChecks :=
  if getCheck r active then
    match active with
    | ⟨0, _⟩ => ⟨r.v1, false, false⟩
    | ⟨1, _⟩ => ⟨false, r.v2, false⟩
    | ⟨2, _⟩ => ⟨false, false, r.v3⟩
  else r

/-- A row state with exactly the checkbox `i` checked. -/
def onlyBox (i : Fin 3) : RowChecks := setCheck ⟨false, false, false⟩ i true

/-- Line 115: `BUDGET = 9`. -/
def BUDGET : Nat := 9

/-- Lines 116-129: the fixed option slate. -/
def OPTIONS : List String :=
  [ "How Did We Get Here?"
  , "How In The World?"
  , "I Made This For You"
  , "If You Make It, They Will Come"
  , "Made Possible By"
  , "Make It Possible"
  , "Rise and Hypothesize"
  , "Rise and Realize"
  , "Rise and Scrutinize"
  , "Rise and Theorize"
  , "What In The World?"
  , "Your Passions Made Possible By"
  ]

/-- Python `str.strip()`: drop leading and trailing whitespace. -/
def pyStrip (s : String) : String :=
  ⟨((s.data.dropWhile Char.isWhitespace).reverse.dropWhile Char.isWhitespace).reverse⟩

/-- The ballot-relevant Streamlit session state: the proposed-name text box and
the checkbox keys of the 12 catalog rows (`row0` .. `row11`) and of the
proposed-option row (`row12`). -/
structure SessionState where
  proposed_name : String
  catalogChecks : Fin 12 → RowChecks
  otherChecks : RowChecks

/-- Line 259: `proposed_name = (st.session_state.get("proposed_name") or "").strip()`. -/
def proposedTrimmed (s : SessionState) : String := pyStrip s.proposed_name

/-- Line 260: `include_other = bool(proposed_name)`. -/
def include_other (s : SessionState) : Bool := proposedTrimmed s ≠ ""

/-- Line 270: `rows = OPTIONS + ([proposed_name] if include_other else [])`. -/
def gridRows (s : SessionState) : List String :=
  OPTIONS ++ (if include_other s then [proposedTrimmed s] else [])

/-- The intensities of the 12 catalog rows, in row order. -/
def catalogVotes (s : SessionState) : List Nat :=
  (List.finRange 12).map fun i => rowVote (s.catalogChecks i)

/-- Lines 297-298: `votes_dict`, mapping each catalog label to its intensity. -/
def votes_dict (s : SessionState) : List (String × Nat) :=
  OPTIONS.zip (catalogVotes s)

/-- Line 300: `other_vote`, the proposed row's intensity; the loop leaves it 0
when no proposed row is present. -/
def other_vote (s : SessionState) : Nat :=
  if include_other s then rowVote s.otherChecks else 0

/-- Line 303: `total_cost = sum(v*v for v in votes_dict.values()) + other_vote*other_vote`. -/
def total_cost (s : SessionState) : Nat :=
  ((votes_dict s).map fun p => p.2 * p.2).sum + other_vote s * other_vote s

/-- Line 304: `remaining = BUDGET - total_cost` (Python ints, may be negative). -/
def remaining (tc : Nat) : Int := (BUDGET : Int) - (tc : Int)

/-- Line 335: `disable_submit = (total_cost > BUDGET) or (not valid_email) or
(already and not allow_replace)`. -/
def disable_submit (tc : Nat) (emailOk dup replace : Bool) : Bool :=
  decide (tc > BUDGET) || !emailOk || (dup && !replace)

/-- All row intensities of the current grid, catalog rows first, then the
proposed row when present. -/
def allIntensities (s : SessionState) : List Nat :=
  catalogVotes s ++ (if include_other s then [rowVote s.otherChecks] else [])

/- ===== Email regex (line 224) =====
`valid_email = bool(re.match(r"^[^@\s]+@[^@\s]+\\.[^@\\s]+$", email))`.
The raw string hands the regex engine the pattern
  ^[^@\s]+@[^@\s]+\\.[^@\\s]+$
in which `\\` matches one literal backslash character, `.` matches any
character except a newline, and the class `[^@\\s]` excludes `@`, the
backslash and the letter `s`. -/

/-- Character class `[^@\s]`: anything but `@` and whitespace. -/
def isLocalChar (c : Char) : Bool := c ≠ '@' && !c.isWhitespace

/-- Character class `[^@\\s]`: anything but `@`, backslash and the letter s. -/
def isTailChar (c : Char) : Bool := c ≠ '@' && c ≠ '\\' && c ≠ 's'

/-- All ways to split a character list into a prefix and a suffix. -/
def splitsList (l : List Char) : List (List Char × List Char) :=
  (List.range (l.length + 1)).map fun i => (l.take i, l.drop i)

/-- Full-string match of the pattern `^[^@\s]+@[^@\s]+\\.[^@\\s]+$` exactly as
the regex engine reads it: some nonempty `[^@\s]+`, then `@`, then a nonempty
`[^@\s]+`, then one literal backslash, then any non-newline character, then a
nonempty `[^@\\s]+` reaching the end. -/
def reFullMatch (l : List Char) : Bool :=
  (splitsList l).any fun pr =>
    !pr.1.isEmpty && pr.1.all isLocalChar &&
      (match pr.2 with
       | '@' :: r2 =>
         (splitsList r2).any fun qr =>
           !qr.1.isEmpty && qr.1.all isLocalChar &&
             (match qr.2 with
              | '\\' :: c :: r4 => c ≠ '\n' && !r4.isEmpty && r4.all isTailChar
              | _ => false)
       | _ => false)

/-- Line 224: the app's email-format validator on the normalized email. -/
def valid_email (email : String) : Bool := reFullMatch email.data

/-- The user edits the proposed-name text box (the widget stores the new text
under the `proposed_name` key; nothing else changes). -/
def setProposedName (s : SessionState) (t : String) : SessionState :=
  { s with proposed_name := t }

/-- Lines 284-287: the body of `if disabled: st.session_state[k] = False`,
clearing the three checkbox keys of row `i`. -/
def clearRowKeys (s : SessionState) (i : Nat) : SessionState :=
  if i = OPTIONS.length then { s with otherChecks := ⟨false, false, false⟩ }
  else { s with catalogChecks := fun k =>
          if k.val = i then ⟨false, false, false⟩ else s.catalogChecks k }

/-- The session-state writes of one rerun of the grid loop (lines 273-292):
for each row index `i` of `rows`, when
`disabled = (i == len(OPTIONS) and not include_other)` holds, the row's
checkbox keys are cleared. -/
def stepState (s : SessionState) : SessionState :=
  (List.range (gridRows s).length).foldl
    (fun st i =>
      if decide (i = OPTIONS.length) && !include_other s then clearRowKeys st i
      else st) s

/-- An all-unchecked row. -/
def emptyRow : RowChecks := ⟨false, false, false⟩

/-- A session whose only nontrivial content is the proposed-name text. -/
def freshState (t : String) : SessionState := ⟨t, fun _ => emptyRow, emptyRow⟩

/-- A session that proposed "Foo" and placed 3 votes on the proposed row. -/
def fooState : SessionState := ⟨"Foo", fun _ => emptyRow, ⟨false, false, true⟩⟩

/-- A session with 2 votes on catalog row 0, 1 vote on a proposed option. -/
def sampleState : SessionState :=
  { proposed_name := "Zebra Cast"
  , catalogChecks := fun i => if i.val = 0 then ⟨false, true, false⟩ else emptyRow
  , otherChecks := ⟨true, false, false⟩ }

/-! ## The spreadsheet store (lines 80-110 and the submit handler)

The worksheet is modelled as a list of rows, each a list of cell strings; the
first row, when present, is the header row. gspread's 1-based row and column
numbers are kept wherever the source computes them (`c.row`, `c.col`,
`headers.index(...) + 1`, `ws.delete_rows(r)`), turning into 0-based list
indices only through the explicit `- 1` / `+ 1` offsets. -/

/-- `ws.row_values(1)`: the header row, `[]` for an empty sheet. -/
def headerOf (sheet : List (List String)) : List String := sheet.headD []

/-- A cell of a row by 0-based column index; absent cells read as `""`. -/
def cellAt (row : List String) (j : Nat) : String := row.getD j ""

/-- Python's `list.index`, as an option: the 0-based index of the first
occurrence of `x`, `none` where Python raises `ValueError`. -/
def listIndex? (x : String) : List String → Option Nat
  | [] => none
  | a :: l => if a = x then some 0 else (listIndex? x l).map (· + 1)

/-- 1-based column numbers of the cells of one row whose value equals `q`,
scanned left to right with the first cell numbered `n + 1`. -/
def cellMatches (q : String) : Nat → List String → List Nat
  | _, [] => []
  | n, v :: row => (if v = q then [n + 1] else []) ++ cellMatches q (n + 1) row

/-- `ws.findall(q)`: the 1-based (row, column) coordinates of every cell whose
value equals `q`, in row-major order, the first row numbered `n + 1`. -/
def findallCells (q : String) : Nat → List (List String) → List (Nat × Nat)
  | _, [] => []
  | n, row :: sheet =>
      (cellMatches q 0 row).map (fun c => (n + 1, c))
        ++ findallCells q (n + 1) sheet

/-- Lines 80-97, `delete_votes_for_email`: return unchanged on an empty email
or a header without an `email` column; otherwise find all cells equal to the
email, keep those in the email column, collect their row numbers except the
header's, and delete those rows in descending order
(`sorted({...}, reverse=True)` modelled as the reversed filtered range). -/
def delete_votes_for_email (email : String) (sheet : List (List String)) :
    List (List String) :=
  if email = "" then sheet
  else
    match listIndex? "email" (headerOf sheet) with
    | none => sheet
    | some j =>
      let cells := (findallCells email 0 sheet).filter fun c => c.2 == j + 1
      let rowNums := (cells.map Prod.fst).filter fun r => r != 1
      let rowsDesc :=
        ((List.range (sheet.length + 1)).filter fun r => decide (r ∈ rowNums)).reverse
      rowsDesc.foldl (fun s r => s.eraseIdx (r - 1)) sheet

/-- `row_dict.get(h, "")`: the value of the first pair keyed `h`, or `""`. -/
def dictGet (d : List (String × String)) (k : String) : String :=
  match d.find? (fun p => p.1 == k) with
  | some p => p.2
  | none => ""

/-- Lines 100-110, `save_vote_to_gsheet`: if there is no header yet, first
append a header row made of the dict's keys (re-reading the header
afterwards), then append the dict's values in the header's column order. -/
def save_vote_to_gsheet (d : List (String × String)) (sheet : List (List String)) :
    List (List String) :=
  let headers := headerOf sheet
  if headers = [] then
    let sheet1 := sheet ++ [d.map Prod.fst]
    sheet1 ++ [(headerOf sheet1).map fun h => dictGet d h]
  else
    sheet ++ [headers.map fun h => dictGet d h]

/-- Lines 337-354, the submit handler on the replace path (`already` and
`allow_replace` both true): delete the voter's prior rows, then append the
new ballot row. -/
def replaceSubmit (email : String) (d : List (String × String))
    (sheet : List (List String)) : List (List String) :=
  save_vote_to_gsheet d (delete_votes_for_email email sheet)

/-- The live ballot rows of an identity: the non-header rows whose cell in
the `email` column equals the given email. -/
def rowsFor (email : String) (sheet : List (List String)) : List (List String) :=
  match listIndex? "email" (headerOf sheet) with
  | none => []
  | some j => (sheet.drop 1).filter fun r => cellAt r j == email

/-- Lines 343-350: the flattened ballot row the submit handler builds
(`row_out`), with numeric values rendered as their decimal strings. -/
def row_out (ts email : String) (s : SessionState) : List (String × String) :=
  [("timestamp_utc", ts), ("email", email), ("total_cost", toString (total_cost s))]
    ++ (votes_dict s).map (fun p => (p.1, toString p.2))
    ++ [("Other (text)", if include_other s then proposedTrimmed s else ""),
        ("Other (votes)", toString (other_vote s))]

/-- The sublist of `l` keeping exactly the elements whose position (0-based,
counted from offset `n`) satisfies `p`; the specification device relating a
sequence of row deletions to a filter. -/
def keepIdx {α : Type} (p : Nat → Bool) : Nat → List α → List α
  | _, [] => []
  | n, a :: l => if p n then a :: keepIdx p (n + 1) l else keepIdx p (n + 1) l

/-- A concrete stored header, in the column order the submit handler uses. -/
def sampleHeader : List String := ["timestamp_utc", "email", "total_cost"]

/-- Concrete prior store rows: two ballots for `a@b.com` and one other. -/
def sampleRows : List (List String) :=
  [["t0", "a@b.com", "5"], ["t1", "x@y.org", "1"], ["t2", "a@b.com", "9"]]

/-- A concrete ballot row dict matching `sampleHeader`. -/
def sampleDict : List (String × String) :=
  [("timestamp_utc", "t9"), ("email", "a@b.com"), ("total_cost", "4")]

/-! ## Helper lemmas -/

lemma rowVote_cases (r : RowChecks) :
    rowVote r = 0 ∨ rowVote r = 1 ∨ rowVote r = 2 ∨ rowVote r = 3 := by
  obtain ⟨a, b, c⟩ := r
  cases a <;> cases b <;> cases c <;> simp [rowVote]

lemma map_sq_zip : ∀ (A : List String) (B : List Nat), A.length = B.length →
    ((A.zip B).map fun p => p.2 * p.2) = B.map fun v => v * v
  | [], [], _ => rfl
  | [], _ :: _, h => by simp at h
  | _ :: _, [], h => by simp at h
  | _ :: A, _ :: B, h => by
      simp only [List.zip_cons_cons, List.map_cons]
      rw [map_sq_zip A B (by simpa using h)]

lemma foldl_no_clear (l : List Nat) (P : Nat → Bool) (s₀ : SessionState)
    (h : ∀ i ∈ l, P i = false) :
    l.foldl (fun st i => if P i then clearRowKeys st i else st) s₀ = s₀ := by
  induction l generalizing s₀ with
  | nil => rfl
  | cons a l ih =>
      simp only [List.foldl_cons, h a (List.mem_cons_self a l), Bool.false_eq_true,
        if_false]
      exact ih s₀ fun i hi => h i (List.mem_cons_of_mem a hi)

/-- The clearing branch of the grid loop is unreachable: when `include_other`
is false the loop runs over only the 12 catalog rows, so index 12 never
occurs; when it is true the `not include_other` conjunct fails. Hence a rerun
never mutates the checkbox session state. -/
lemma stepState_eq (s : SessionState) : stepState s = s := by
  unfold stepState
  apply foldl_no_clear
  intro i hi
  cases hio : include_other s with
  | false =>
      have hlen : (gridRows s).length = 12 := by simp [gridRows, hio, OPTIONS]
      rw [hlen] at hi
      have : i < 12 := List.mem_range.mp hi
      simp [OPTIONS]
      omega
  | true => simp [hio]

/-! ## Claims -/

/-- C1: for every checkbox assignment over the catalog rows and the optional
proposed row, the computed `total_cost` equals the sum over all grid rows of
the row intensity squared, and every row intensity lies in {0,1,2,3}. -/
theorem C1_total_cost_sum_of_squares (s : SessionState) :
    total_cost s = ((allIntensities s).map fun v => v * v).sum
    ∧ ∀ v ∈ allIntensities s, v = 0 ∨ v = 1 ∨ v = 2 ∨ v = 3 := by
  constructor
  · unfold total_cost allIntensities votes_dict
    rw [map_sq_zip _ _ (by simp [catalogVotes, OPTIONS])]
    rw [List.map_append, List.sum_append]
    cases h : include_other s <;> simp [other_vote, h]
  · intro v hv
    rcases List.mem_append.mp hv with h | h
    · unfold catalogVotes at h
      obtain ⟨i, -, rfl⟩ := List.mem_map.mp h
      exact rowVote_cases _
    · cases hio : include_other s
      · rw [hio] at h; simp at h
      · rw [hio] at h
        simp only [if_true, List.mem_singleton] at h
        subst h
        exact rowVote_cases _

/-- C1 witness: the theorem applied to a concrete session. -/
theorem C1_total_cost_sum_of_squares_witness :
    total_cost sampleState = ((allIntensities sampleState).map fun v => v * v).sum
    ∧ ∀ v ∈ allIntensities sampleState, v = 0 ∨ v = 1 ∨ v = 2 ∨ v = 3 :=
  C1_total_cost_sum_of_squares sampleState

/-- C2: submission is enabled (`disable_submit` is false) iff the ballot is
within budget (`total_cost ≤ 9`), the email is format-valid, and the voter is
not an unconfirmed duplicate (`!already || allow_replace`); this covers every
combination of the booleans and every total cost. -/
theorem C2_submit_enabled_iff (tc : Nat) (emailOk dup replace : Bool) :
    disable_submit tc emailOk dup replace = false ↔
      tc ≤ 9 ∧ emailOk = true ∧ (dup = false ∨ replace = true) := by
  cases emailOk <;> cases dup <;> cases replace <;>
    simp [disable_submit, BUDGET]

/-- C4: the email validator as written. Because the raw-string pattern
contains `\\.` (a literal backslash, then any character) and `[^@\\s]` (no
`@`, no backslash, no letter s), it rejects `"a@b.co"` — and even the
`"name@example.com"` example from the app's own error message — while
accepting only addresses that contain a literal backslash, such as
`"a@b\.co"`. -/
theorem C4_email_validator_behavior :
    valid_email "a@b.co" = false
    ∧ valid_email "name@example.com" = false
    ∧ valid_email "a@b" = false
    ∧ valid_email "a b@c.com" = false
    ∧ valid_email "" = false
    ∧ valid_email "a@b\\.co" = true := by decide

/-- C6: `remaining` is the integer `9 - totalCost` (negative when over
budget), the budget conjunct of submission gating passes exactly when
`totalCost ≤ 9`, and a zero-cost ballot is never blocked. -/
theorem C6_remaining_and_budget_validity (tc : Nat) :
    remaining tc = (9 : Int) - (tc : Int)
    ∧ (disable_submit tc true false false = false ↔ tc ≤ 9)
    ∧ disable_submit 0 true false false = false
    ∧ (9 < tc → remaining tc < 0) := by
  refine ⟨rfl, ?_, rfl, ?_⟩
  · simp [disable_submit, BUDGET]
  · intro h
    unfold remaining BUDGET
    omega

/-- C6 witness: the theorem applied at total cost 10, discharging the
over-budget hypothesis. -/
theorem C6_remaining_and_budget_validity_witness :
    remaining 10 = (9 : Int) - (10 : Int)
    ∧ (disable_submit 10 true false false = false ↔ 10 ≤ 9)
    ∧ disable_submit 0 true false false = false
    ∧ remaining 10 < 0 :=
  ⟨(C6_remaining_and_budget_validity 10).1,
   (C6_remaining_and_budget_validity 10).2.1,
   (C6_remaining_and_budget_validity 10).2.2.1,
   (C6_remaining_and_budget_validity 10).2.2.2 (by decide)⟩

/-- C7: proposing an empty or whitespace-only name adds no grid row (and the
proposed-row intensity contributes nothing); proposing a non-empty name adds
exactly one row beyond the fixed catalog, whose intensity is 0 when the
proposed row's checkboxes are unset (as in a fresh session). -/
theorem C7_propose_name_row (s : SessionState) :
    (proposedTrimmed s = "" → gridRows s = OPTIONS ∧ other_vote s = 0)
    ∧ (proposedTrimmed s ≠ "" →
        gridRows s = OPTIONS ++ [proposedTrimmed s]
        ∧ (gridRows s).length = OPTIONS.length + 1
        ∧ (s.otherChecks = emptyRow → other_vote s = 0)) := by
  constructor
  · intro h
    have hio : include_other s = false := by simp [include_other, h]
    simp [gridRows, other_vote, hio]
  · intro h
    have hio : include_other s = true := by simp [include_other, h]
    refine ⟨by simp [gridRows, hio], by simp [gridRows, hio], ?_⟩
    intro hoc
    simp [other_vote, hio, hoc, emptyRow, rowVote]

/-- C7 witness: the theorem applied to a whitespace-only proposal and to a
fresh non-empty proposal. -/
theorem C7_propose_name_row_witness :
    (gridRows (freshState "   ") = OPTIONS ∧ other_vote (freshState "   ") = 0)
    ∧ (gridRows (freshState "Starlight") = OPTIONS ++ [proposedTrimmed (freshState "Starlight")]
        ∧ (gridRows (freshState "Starlight")).length = OPTIONS.length + 1
        ∧ other_vote (freshState "Starlight") = 0) :=
  ⟨(C7_propose_name_row (freshState "   ")).1 (by decide),
   ((C7_propose_name_row (freshState "Starlight")).2 (by decide)).1,
   ((C7_propose_name_row (freshState "Starlight")).2 (by decide)).2.1,
   ((C7_propose_name_row (freshState "Starlight")).2 (by decide)).2.2 rfl⟩

/-- C9: the derived row intensity is always the single value in {0,1,2,3}
obtained by giving the 3-votes box precedence over the 2-votes box and the
2-votes box precedence over the 1-votes box; and checking a box runs
`exclusify`, which leaves exactly that box checked. -/
theorem C9_row_intensity_exclusive :
    (∀ r : RowChecks, rowVote r = 0 ∨ rowVote r = 1 ∨ rowVote r = 2 ∨ rowVote r = 3)
    ∧ (∀ a b : Bool, rowVote ⟨a, b, true⟩ = 3)
    ∧ (∀ a : Bool, rowVote ⟨a, true, false⟩ = 2)
    ∧ rowVote ⟨true, false, false⟩ = 1
    ∧ rowVote ⟨false, false, false⟩ = 0
    ∧ (∀ (r : RowChecks) (i : Fin 3), exclusify i (setCheck r i true) = onlyBox i) := by
  refine ⟨rowVote_cases, ?_, ?_, rfl, rfl, ?_⟩
  · intro a b; cases a <;> cases b <;> rfl
  · intro a; cases a <;> rfl
  · intro r i
    obtain ⟨a, b, c⟩ := r
    fin_cases i <;> cases a <;> cases b <;> cases c <;> rfl

/-- C5 counterexample: a session that proposed "Foo" and voted intensity 3 on
the proposed row, then re-proposes "Bar": the grid shows the single proposed
row "Bar", but its intensity is still 3, not 0 — the votes carry over to the
new name, refuting the claimed reset. -/
theorem C5_counterexample_votes_carry_over :
    other_vote fooState = 3
    ∧ gridRows (setProposedName fooState "Bar") = OPTIONS ++ ["Bar"]
    ∧ other_vote (setProposedName fooState "Bar") = 3 := by
  refine ⟨rfl, ?_, rfl⟩
  decide

/-- C5 (amended): re-proposing a different non-empty name does replace the
previous proposed row with a single row bearing the new name, but the new
row's intensity is carried over from the previous proposed row, not reset to
0; moreover no rerun of the grid loop ever clears the checkbox keys (the
clearing branch guarded by `disabled` is unreachable). -/
theorem C5_repropose_carries_intensity (s : SessionState) (t : String)
    (h : pyStrip t ≠ "") :
    gridRows (setProposedName s t) = OPTIONS ++ [pyStrip t]
    ∧ other_vote (setProposedName s t) = rowVote s.otherChecks
    ∧ stepState s = s := by
  obtain ⟨pn, cc, oc⟩ := s
  have hio : include_other ⟨t, cc, oc⟩ = true := by
    simp [include_other, proposedTrimmed, h]
  refine ⟨?_, ?_, stepState_eq _⟩
  · simp [gridRows, setProposedName, hio, proposedTrimmed]
  · simp [other_vote, setProposedName, hio]

/-- C5 witness: the amended theorem applied to the "Foo"-with-3-votes session
re-proposing "Bar". -/
theorem C5_repropose_carries_intensity_witness :
    gridRows (setProposedName fooState "Bar") = OPTIONS ++ [pyStrip "Bar"]
    ∧ other_vote (setProposedName fooState "Bar") = rowVote fooState.otherChecks
    ∧ stepState fooState = fooState :=
  C5_repropose_carries_intensity fooState "Bar" (by decide)

/-! ## Store lemmas: a descending sequence of row deletions is a filter -/

lemma keepIdx_append {α : Type} (p : Nat → Bool) (ys : List α) :
    ∀ (xs : List α) (n : Nat),
      keepIdx p n (xs ++ ys) = keepIdx p n xs ++ keepIdx p (n + xs.length) ys
  | [], n => by simp [keepIdx]
  | a :: xs, n => by
      show (if p n then a :: keepIdx p (n + 1) (xs ++ ys) else keepIdx p (n + 1) (xs ++ ys))
          = (if p n then a :: keepIdx p (n + 1) xs else keepIdx p (n + 1) xs)
            ++ keepIdx p (n + (a :: xs).length) ys
      rw [keepIdx_append p ys xs (n + 1)]
      have h2 : n + 1 + xs.length = n + (a :: xs).length := by
        simp only [List.length_cons]
        omega
      rw [h2]
      cases p n <;> simp

lemma keepIdx_of_all_true {α : Type} (p : Nat → Bool) :
    ∀ (l : List α) (n : Nat), (∀ k, n ≤ k → p k = true) → keepIdx p n l = l := by
  intro l
  induction l with
  | nil => intro n _; rfl
  | cons a l ih =>
      intro n h
      simp only [keepIdx, h n (Nat.le_refl n), if_true]
      rw [ih (n + 1) fun k hk => h k (by omega)]

lemma keepIdx_congr {α : Type} (p q : Nat → Bool) :
    ∀ (l : List α) (n : Nat), (∀ k, n ≤ k → k < n + l.length → p k = q k) →
      keepIdx p n l = keepIdx q n l := by
  intro l
  induction l with
  | nil => intro n _; rfl
  | cons a l ih =>
      intro n h
      have h0 : p n = q n := h n (Nat.le_refl n) (by simp only [List.length_cons]; omega)
      have hrec := ih (n + 1) fun k hk hk' =>
        h k (by omega) (by simp only [List.length_cons] at hk' ⊢; omega)
      simp only [keepIdx, h0, hrec]

lemma keepIdx_eq_filter {α : Type} [Inhabited α] (p : Nat → Bool) (q : α → Bool) :
    ∀ (l : List α) (n : Nat),
      (∀ k, k < l.length → p (n + k) = q (l.getD k default)) →
      keepIdx p n l = l.filter q := by
  intro l
  induction l with
  | nil => intro n _; rfl
  | cons a l ih =>
      intro n h
      have h0 : p n = q a := by
        simpa using h 0 (by simp only [List.length_cons]; omega)
      have hrec := ih (n + 1) fun k hk => by
        have hx := h (k + 1) (by simp only [List.length_cons]; omega)
        have hy : n + (k + 1) = n + 1 + k := by omega
        rw [hy] at hx
        simpa using hx
      simp only [keepIdx, h0, hrec, List.filter_cons]

lemma eraseIdx_take_drop {α : Type} :
    ∀ (l : List α) (n : Nat), l.eraseIdx n = l.take n ++ l.drop (n + 1)
  | [], _ => by simp
  | _ :: _, 0 => by simp
  | a :: l, n + 1 => by
      simp only [List.eraseIdx_cons_succ, List.take_succ_cons, List.drop_succ_cons,
        List.cons_append]
      rw [eraseIdx_take_drop l n]

lemma foldl_eraseIdx_desc {α : Type} :
    ∀ (ds : List Nat) (l : List α), List.Pairwise (fun a b => b < a) ds →
      (∀ d ∈ ds, d < l.length) →
      ds.foldl (fun s d => s.eraseIdx d) l = keepIdx (fun i => decide (i ∉ ds)) 0 l := by
  intro ds
  induction ds with
  | nil =>
      intro l _ _
      rw [List.foldl_nil]
      refine (keepIdx_of_all_true _ l 0 ?_).symm
      intro k _
      simp
  | cons d ds ih =>
      intro l hpw hlt
      obtain ⟨hhead, htail⟩ := List.pairwise_cons.mp hpw
      have hd : d < l.length := hlt d (List.mem_cons_self d ds)
      have hbound : ∀ e ∈ ds, e < (l.eraseIdx d).length := by
        intro e he
        rw [List.length_eraseIdx, if_pos hd]
        have : e < d := hhead e he
        omega
      rw [List.foldl_cons, ih (l.eraseIdx d) htail hbound]
      rw [eraseIdx_take_drop, keepIdx_append]
      conv_rhs => rw [← List.take_append_drop d l, List.drop_eq_getElem_cons hd]
      rw [keepIdx_append]
      have hlen : (l.take d).length = d := by
        rw [List.length_take]
        omega
      rw [hlen, Nat.zero_add]
      have hcons : keepIdx (fun i => decide (i ∉ d :: ds)) d (l[d] :: l.drop (d + 1))
          = keepIdx (fun i => decide (i ∉ d :: ds)) (d + 1) (l.drop (d + 1)) := by
        simp [keepIdx]
      rw [hcons]
      have hdrop1 : keepIdx (fun i => decide (i ∉ ds)) d (l.drop (d + 1))
          = l.drop (d + 1) := by
        apply keepIdx_of_all_true
        intro k hk
        have : k ∉ ds := fun hmem => by have := hhead k hmem; omega
        simpa using this
      have hdrop2 : keepIdx (fun i => decide (i ∉ d :: ds)) (d + 1) (l.drop (d + 1))
          = l.drop (d + 1) := by
        apply keepIdx_of_all_true
        intro k hk
        have : k ∉ d :: ds := by
          intro hmem
          rcases List.mem_cons.mp hmem with h | h
          · omega
          · have := hhead k h; omega
        simpa using this
      rw [hdrop1, hdrop2]
      have htake : keepIdx (fun i => decide (i ∉ ds)) 0 (l.take d)
          = keepIdx (fun i => decide (i ∉ d :: ds)) 0 (l.take d) := by
        apply keepIdx_congr
        intro k _ hk
        rw [Nat.zero_add, hlen] at hk
        apply decide_eq_decide.mpr
        simp only [List.mem_cons]
        constructor
        · intro h hmem
          rcases hmem with h' | h'
          · omega
          · exact h h'
        · intro h hmem
          exact h (Or.inr hmem)
      rw [htake]

lemma listIndex?_spec (x : String) :
    ∀ (l : List String) (j : Nat), listIndex? x l = some j →
      j < l.length ∧ l.getD j "" = x
  | [], j => by intro h; simp [listIndex?] at h
  | a :: l, j => by
      intro h
      simp only [listIndex?] at h
      by_cases hax : a = x
      · rw [if_pos hax] at h
        obtain rfl : (0 : Nat) = j := Option.some.inj h
        exact ⟨by simp, by simpa using hax⟩
      · rw [if_neg hax] at h
        cases hr : listIndex? x l with
        | none => rw [hr] at h; simp at h
        | some i =>
            rw [hr] at h
            simp only [Option.map_some', Option.some.injEq] at h
            subst h
            obtain ⟨h1, h2⟩ := listIndex?_spec x l i hr
            exact ⟨by simp only [List.length_cons]; omega,
                   by simpa [List.getD_cons_succ] using h2⟩

lemma mem_cellMatches (q : String) :
    ∀ (row : List String) (n c : Nat),
      c ∈ cellMatches q n row ↔
        ∃ k, k < row.length ∧ c = n + k + 1 ∧ row.getD k "" = q
  | [], n, c => by simp [cellMatches]
  | v :: row, n, c => by
      simp only [cellMatches, List.mem_append]
      rw [mem_cellMatches q row (n + 1) c]
      constructor
      · rintro (h | ⟨k, hk, rfl, hq⟩)
        · by_cases hv : v = q
          · rw [if_pos hv] at h
            obtain rfl : c = n + 1 := by simpa using h
            exact ⟨0, by simp, by omega, by simpa using hv⟩
          · rw [if_neg hv] at h
            simp at h
        · exact ⟨k + 1, by simp only [List.length_cons]; omega, by omega,
                 by simpa [List.getD_cons_succ] using hq⟩
      · rintro ⟨k, hk, rfl, hq⟩
        cases k with
        | zero =>
            left
            have hv : v = q := by simpa using hq
            rw [if_pos hv]
            simp
        | succ k =>
            right
            exact ⟨k, by simp only [List.length_cons] at hk; omega, by omega,
                   by simpa [List.getD_cons_succ] using hq⟩

lemma mem_findallCells (q : String) :
    ∀ (sheet : List (List String)) (n r c : Nat),
      (r, c) ∈ findallCells q n sheet ↔
        ∃ i, i < sheet.length ∧ r = n + i + 1 ∧ c ∈ cellMatches q 0 (sheet.getD i [])
  | [], n, r, c => by simp [findallCells]
  | row :: sheet, n, r, c => by
      simp only [findallCells, List.mem_append, List.mem_map]
      rw [mem_findallCells q sheet (n + 1) r c]
      constructor
      · rintro (⟨c', hc', heq⟩ | ⟨i, hi, rfl, hc⟩)
        · injection heq with h1 h2
          subst h1; subst h2
          exact ⟨0, by simp, by omega, by simpa using hc'⟩
        · exact ⟨i + 1, by simp only [List.length_cons]; omega, by omega,
                 by simpa [List.getD_cons_succ] using hc⟩
      · rintro ⟨i, hi, rfl, hc⟩
        cases i with
        | zero =>
            left
            exact ⟨c, by simpa using hc, by simp⟩
        | succ i =>
            right
            exact ⟨i, by simp only [List.length_cons] at hi; omega, by omega,
                   by simpa [List.getD_cons_succ] using hc⟩

lemma getD_of_le (l : List String) (j : Nat) (h : l.length ≤ j) : l.getD j "" = "" := by
  rw [List.getD_eq_getElem?_getD, List.getElem?_eq_none (by omega), Option.getD_none]

lemma cellMatches_col_iff (q : String) (row : List String) (j : Nat) (hq : q ≠ "") :
    (j + 1) ∈ cellMatches q 0 row ↔ cellAt row j = q := by
  rw [mem_cellMatches]
  constructor
  · rintro ⟨k, hk, hkeq, hget⟩
    have : k = j := by omega
    subst this
    simpa [cellAt] using hget
  · intro h
    by_cases hj : j < row.length
    · exact ⟨j, hj, by omega, by simpa [cellAt] using h⟩
    · exfalso
      rw [cellAt, getD_of_le row j (by omega)] at h
      exact hq h.symm

/-- The net effect of `delete_votes_for_email` on a sheet whose header has an
`email` column at 0-based index `j`: the header row stays and exactly the
other rows whose `email`-column cell equals the email are removed. -/
lemma delete_votes_spec (email : String) (H : List String) (rest : List (List String))
    (j : Nat) (hne : email ≠ "") (hj : listIndex? "email" H = some j) :
    delete_votes_for_email email (H :: rest)
      = H :: rest.filter fun r => !(cellAt r j == email) := by
  have hunf : delete_votes_for_email email (H :: rest)
      = (((List.range ((H :: rest).length + 1)).filter fun r =>
            decide (r ∈ ((((findallCells email 0 (H :: rest)).filter
                fun c => c.2 == j + 1).map Prod.fst).filter fun r => r != 1))).reverse).foldl
          (fun s r => s.eraseIdx (r - 1)) (H :: rest) := by
    unfold delete_votes_for_email
    rw [if_neg hne]
    have hsc : listIndex? "email" (headerOf (H :: rest)) = some j := hj
    rw [hsc]
  rw [hunf]
  set rowNums := (((findallCells email 0 (H :: rest)).filter
      fun c => c.2 == j + 1).map Prod.fst).filter (fun r => r != 1) with hrowNums
  set rowsDesc := ((List.range ((H :: rest).length + 1)).filter
      fun r => decide (r ∈ rowNums)).reverse with hrowsDesc
  have hmemN : ∀ r, r ∈ rowNums ↔
      2 ≤ r ∧ r ≤ rest.length + 1 ∧ cellAt ((H :: rest).getD (r - 1) []) j = email := by
    intro r
    rw [hrowNums, List.mem_filter, List.mem_map]
    constructor
    · rintro ⟨⟨p, hp, rfl⟩, hr1⟩
      rw [List.mem_filter] at hp
      obtain ⟨hpf, hpc⟩ := hp
      have hc : p.2 = j + 1 := by simpa using hpc
      have hp' : (p.1, j + 1) ∈ findallCells email 0 (H :: rest) := by
        rw [← hc]
        exact hpf
      rw [mem_findallCells] at hp'
      obtain ⟨i, hi, hri, hcm⟩ := hp'
      rw [cellMatches_col_iff email _ j hne] at hcm
      have hrne : p.1 ≠ 1 := by simpa using hr1
      refine ⟨by omega, by simp only [List.length_cons] at hi; omega, ?_⟩
      have hi' : p.1 - 1 = i := by omega
      rw [hi']
      exact hcm
    · rintro ⟨h2, hlen, hcell⟩
      refine ⟨⟨(r, j + 1), ?_, rfl⟩, by simp; omega⟩
      rw [List.mem_filter]
      refine ⟨?_, by simp⟩
      rw [mem_findallCells]
      exact ⟨r - 1, by simp only [List.length_cons]; omega, by omega,
             (cellMatches_col_iff email _ j hne).mpr hcell⟩
  have hge2 : ∀ r ∈ rowsDesc, 2 ≤ r := by
    intro r hr
    rw [hrowsDesc, List.mem_reverse, List.mem_filter] at hr
    exact ((hmemN r).mp (by simpa using hr.2)).1
  have hpwD : List.Pairwise (fun a b => b < a) rowsDesc := by
    rw [hrowsDesc, List.pairwise_reverse]
    exact (List.pairwise_lt_range _).filter _
  set ds := rowsDesc.map (fun r => r - 1) with hds
  have hpwds : List.Pairwise (fun a b => b < a) ds := by
    rw [hds, List.pairwise_map]
    refine List.Pairwise.imp_of_mem ?_ hpwD
    intro a b ha hb hab
    have h2a := hge2 a ha
    have h2b := hge2 b hb
    omega
  have hmemds : ∀ i, i ∈ ds ↔
      1 ≤ i ∧ i ≤ rest.length ∧ cellAt ((H :: rest).getD i []) j = email := by
    intro i
    rw [hds, List.mem_map]
    constructor
    · rintro ⟨r, hr, rfl⟩
      have h2 := hge2 r hr
      rw [hrowsDesc, List.mem_reverse, List.mem_filter] at hr
      have hN := (hmemN r).mp (by simpa using hr.2)
      exact ⟨by omega, by omega, hN.2.2⟩
    · rintro ⟨h1, hlen, hcell⟩
      refine ⟨i + 1, ?_, by omega⟩
      rw [hrowsDesc, List.mem_reverse, List.mem_filter]
      refine ⟨List.mem_range.mpr (by simp only [List.length_cons]; omega), ?_⟩
      simp only [decide_eq_true_eq]
      refine (hmemN (i + 1)).mpr ⟨by omega, by omega, ?_⟩
      simpa using hcell
  have hboundds : ∀ d ∈ ds, d < (H :: rest).length := by
    intro d hd
    have := (hmemds d).mp hd
    simp only [List.length_cons]
    omega
  have hfold : rowsDesc.foldl (fun s r => s.eraseIdx (r - 1)) (H :: rest)
      = ds.foldl (fun s d => s.eraseIdx d) (H :: rest) := by
    rw [hds, List.foldl_map]
  rw [hfold, foldl_eraseIdx_desc ds (H :: rest) hpwds hboundds]
  have hp0 : (decide ((0 : Nat) ∉ ds)) = true := by
    simp only [decide_eq_true_eq]
    intro h0
    have := (hmemds 0).mp h0
    omega
  show (if (fun i => decide (i ∉ ds)) 0 then
          H :: keepIdx (fun i => decide (i ∉ ds)) 1 rest
        else keepIdx (fun i => decide (i ∉ ds)) 1 rest) = _
  rw [show (fun i => decide (i ∉ ds)) 0 = true from hp0, if_pos rfl]
  congr 1
  apply keepIdx_eq_filter
  intro k hk
  show decide ((1 + k) ∉ ds) = !(cellAt (rest.getD k []) j == email)
  have hiff : ((1 + k) ∈ ds) ↔ cellAt (rest.getD k []) j = email := by
    rw [hmemds (1 + k)]
    constructor
    · rintro ⟨-, -, hc⟩
      rw [Nat.add_comm 1 k, List.getD_cons_succ] at hc
      exact hc
    · intro hc
      refine ⟨by omega, by omega, ?_⟩
      rw [Nat.add_comm 1 k, List.getD_cons_succ]
      exact hc
  by_cases hm : (1 + k) ∈ ds
  · have hcell : cellAt (rest.getD k []) j = email := hiff.mp hm
    rw [hcell, show decide ((1 + k) ∉ ds) = false from by simp [hm]]
    simp
  · have hc : (cellAt (rest.getD k []) j == email) = false := by
      rw [beq_eq_false_iff_ne]
      exact fun hcc => hm (hiff.mpr hcc)
    rw [hc, show decide ((1 + k) ∉ ds) = true from by simp [hm]]
    rfl

lemma getD_map_str (f : String → String) :
    ∀ (l : List String) (j : Nat), j < l.length → (l.map f).getD j "" = f (l.getD j "")
  | [], j => by intro h; simp at h
  | a :: l, 0 => by intro _; simp
  | a :: l, j + 1 => by
      intro h
      simp only [List.map_cons, List.getD_cons_succ]
      exact getD_map_str f l j (by simpa using h)

lemma dictGet_cons_self (k v : String) (t : List (String × String)) :
    dictGet ((k, v) :: t) k = v := by
  unfold dictGet
  rw [List.find?_cons_of_pos]
  simp

lemma dictGet_cons_ne (k v k' : String) (t : List (String × String)) (h : k ≠ k') :
    dictGet ((k, v) :: t) k' = dictGet t k' := by
  unfold dictGet
  rw [List.find?_cons_of_neg]
  simpa using h

lemma dictGet_keys_nodup :
    ∀ (d : List (String × String)), (d.map Prod.fst).Nodup →
      (d.map Prod.fst).map (fun k => dictGet d k) = d.map Prod.snd
  | [], _ => rfl
  | (k, v) :: t, hnd => by
      simp only [List.map_cons]
      obtain ⟨hk, hnd'⟩ := List.nodup_cons.mp hnd
      congr 1
      · exact dictGet_cons_self k v t
      · have hcg : ∀ a ∈ t.map Prod.fst, dictGet ((k, v) :: t) a = dictGet t a := by
          intro a ha
          exact dictGet_cons_ne k v a t (fun hka => hk (hka ▸ ha))
        rw [List.map_congr_left hcg, dictGet_keys_nodup t hnd']

/-- C10: `delete_votes_for_email` removes exactly the non-header rows whose
`email`-column cell equals the given email, keeps the header row, and leaves
the store untouched when the email is empty or the header has no `email`
column. -/
theorem C10_delete_votes_semantics (email : String) (H : List String)
    (rest : List (List String)) (j : Nat) :
    delete_votes_for_email "" (H :: rest) = H :: rest
    ∧ (listIndex? "email" H = none →
        delete_votes_for_email email (H :: rest) = H :: rest)
    ∧ (listIndex? "email" H = some j → email ≠ "" →
        delete_votes_for_email email (H :: rest)
          = H :: rest.filter fun r => !(cellAt r j == email)) := by
  refine ⟨?_, ?_, fun hj hne => delete_votes_spec email H rest j hne hj⟩
  · unfold delete_votes_for_email
    rw [if_pos rfl]
  · intro hnone
    unfold delete_votes_for_email
    by_cases he : email = ""
    · rw [if_pos he]
    · rw [if_neg he]
      have hsc : listIndex? "email" (headerOf (H :: rest)) = none := hnone
      rw [hsc]

/-- C10 witness: the theorem applied to a concrete sheet with an empty email,
with a header lacking the `email` column, and on the main deletion path. -/
theorem C10_delete_votes_semantics_witness :
    delete_votes_for_email "" (sampleHeader :: sampleRows) = sampleHeader :: sampleRows
    ∧ delete_votes_for_email "a@b.com" (["ts", "mail"] :: sampleRows)
        = ["ts", "mail"] :: sampleRows
    ∧ delete_votes_for_email "a@b.com" (sampleHeader :: sampleRows)
        = sampleHeader :: sampleRows.filter fun r => !(cellAt r 1 == "a@b.com") :=
  ⟨(C10_delete_votes_semantics "" sampleHeader sampleRows 0).1,
   (C10_delete_votes_semantics "a@b.com" ["ts", "mail"] sampleRows 0).2.1 (by decide),
   (C10_delete_votes_semantics "a@b.com" sampleHeader sampleRows 1).2.2
     (by decide) (by decide)⟩

/-- C8: appending a ballot row to a store with an established (non-empty)
header appends exactly one row whose cells are looked up from the dict by
header name in the established column order, leaving the header unchanged;
appending to an empty store first writes a header made of the dict's own
keys and then the row; and with duplicate-free keys the stored cells are
exactly the dict's values in key order (missing keys read as `""` via
`dictGet`). -/
theorem C8_append_respects_header (d : List (String × String)) (H : List String)
    (rest : List (List String)) (hH : H ≠ []) :
    save_vote_to_gsheet d (H :: rest)
      = H :: (rest ++ [H.map fun h => dictGet d h])
    ∧ headerOf (save_vote_to_gsheet d (H :: rest)) = H
    ∧ save_vote_to_gsheet d []
        = [d.map Prod.fst, (d.map Prod.fst).map fun k => dictGet d k]
    ∧ ((d.map Prod.fst).Nodup →
        (d.map Prod.fst).map (fun k => dictGet d k) = d.map Prod.snd) := by
  have hhd : headerOf (H :: rest) = H := rfl
  have h1 : save_vote_to_gsheet d (H :: rest)
      = H :: (rest ++ [H.map fun h => dictGet d h]) := by
    simp only [save_vote_to_gsheet]
    rw [hhd, if_neg hH, List.cons_append]
  refine ⟨h1, by rw [h1]; rfl, rfl, dictGet_keys_nodup d⟩

/-- C8 witness: the theorem applied to a concrete dict, header and store. -/
theorem C8_append_respects_header_witness :
    save_vote_to_gsheet sampleDict (sampleHeader :: sampleRows)
      = sampleHeader :: (sampleRows ++ [sampleHeader.map fun h => dictGet sampleDict h])
    ∧ headerOf (save_vote_to_gsheet sampleDict (sampleHeader :: sampleRows)) = sampleHeader
    ∧ save_vote_to_gsheet sampleDict []
        = [sampleDict.map Prod.fst, (sampleDict.map Prod.fst).map fun k => dictGet sampleDict k]
    ∧ (sampleDict.map Prod.fst).map (fun k => dictGet sampleDict k)
        = sampleDict.map Prod.snd :=
  have h := C8_append_respects_header sampleDict sampleHeader sampleRows (by decide)
  ⟨h.1, h.2.1, h.2.2.1, h.2.2.2 (by decide)⟩

/-- C3: a replace-submission (delete the identity's rows, then append the new
ballot row) leaves the store with exactly one live row for that identity —
the newly appended one — for every prior store whose header has an `email`
column, every non-empty email, and every ballot dict carrying that email. -/
theorem C3_replace_leaves_single_live_row (email : String)
    (d : List (String × String)) (H : List String) (rest : List (List String))
    (j : Nat) (hj : listIndex? "email" H = some j) (hne : email ≠ "")
    (hd : dictGet d "email" = email) :
    rowsFor email (replaceSubmit email d (H :: rest))
      = [H.map fun h => dictGet d h] := by
  obtain ⟨hjlen, hjget⟩ := listIndex?_spec "email" H j hj
  have hH : H ≠ [] := by
    intro h
    rw [h] at hj
    simp [listIndex?] at hj
  have hdel := delete_votes_spec email H rest j hne hj
  unfold replaceSubmit
  rw [hdel]
  have hhd : headerOf (H :: rest.filter fun r => !(cellAt r j == email)) = H := rfl
  have hsave : save_vote_to_gsheet d (H :: rest.filter fun r => !(cellAt r j == email))
      = H :: ((rest.filter fun r => !(cellAt r j == email))
          ++ [H.map fun h => dictGet d h]) := by
    simp only [save_vote_to_gsheet]
    rw [hhd, if_neg hH, List.cons_append]
  rw [hsave]
  unfold rowsFor
  have hsc : listIndex? "email" (headerOf (H :: ((rest.filter
      fun r => !(cellAt r j == email)) ++ [H.map fun h => dictGet d h]))) = some j := hj
  rw [hsc]
  show ((rest.filter fun r => !(cellAt r j == email))
      ++ [H.map fun h => dictGet d h]).filter (fun r => cellAt r j == email)
    = [H.map fun h => dictGet d h]
  rw [List.filter_append]
  have hfilter1 : ((rest.filter fun r => !(cellAt r j == email)).filter
      fun r => cellAt r j == email) = [] := by
    rw [List.filter_eq_nil_iff]
    intro a ha
    have hmem := (List.mem_filter.mp ha).2
    intro hq
    rw [hq] at hmem
    simp at hmem
  have hnew : cellAt (H.map fun h => dictGet d h) j = email := by
    rw [cellAt, getD_map_str _ H j hjlen, hjget, hd]
  have hq : (cellAt (H.map fun h => dictGet d h) j == email) = true := by
    rw [hnew]
    exact beq_self_eq_true email
  rw [hfilter1]
  simp only [List.nil_append, List.filter_cons, hq, if_true, List.filter_nil]

/-- C3 witness: the theorem applied to a concrete prior store holding two old
rows for `a@b.com`, with the ballot row the submit handler builds. -/
theorem C3_replace_leaves_single_live_row_witness :
    rowsFor "a@b.com" (replaceSubmit "a@b.com" (row_out "t3" "a@b.com" sampleState)
        (sampleHeader :: sampleRows))
      = [sampleHeader.map fun h => dictGet (row_out "t3" "a@b.com" sampleState) h] :=
  C3_replace_leaves_single_live_row "a@b.com" (row_out "t3" "a@b.com" sampleState)
    sampleHeader sampleRows 1 (by decide) (by decide) (by decide)

end QV
